import Mathlib

/-!
Shallow embedding of `src/09_delays/src/delays.rs` (uberFoo/rust-raspi3-OS-tutorials).

The BCM system timer is a pair of read-only 32-bit MMIO registers
(`SYSTMR_LO` at offset 0x00, `SYSTMR_HI` at offset 0x04).  We model the
hardware as a trace `s : Nat → DevState` giving the contents of the two
registers at each successive MMIO read instant; every read advances the
instant by one and is appended to a read log, so the non-atomicity of the
two 32-bit accesses is explicit.

`get_system_timer` is translated literally from the source: read HI, read
HI again, and if the two differ read HI a third time (kept as the
authoritative high value) and then LO; otherwise read LO; compose
`(u64::from(hi) << 32) | u64::from(lo)`.

`wait_msec_st n` reads the counter once (call the reading `t`), returns at
once if `t == 0`, and otherwise loops; the loop body in the source is
`if self.get_system_timer() < (t + n) { break; }`, that is, it BREAKS when
the fresh reading is strictly below `t + n`.  The loop is modelled with
explicit fuel (an iteration bound); `none` means the bound was exhausted
without the break condition firing.  `t + n` is a `u64` addition and is
modelled mod 2^64.

`wait_msec` (the CPU generic timer) computes `(frq as u32 / 1000) * n` in
u32 arithmetic, writes it to `CNTP_TVAL_EL0`, sets ENABLE and IMASK in one
`CNTP_CTL_EL0` update, polls ISTATUS, and finally clears ENABLE.  We model
the software-visible flags of the control register, the sequence of
register writes the function emits, and the ISTATUS line as an
environment-driven boolean per poll.

`wait_cycles cyc` runs `for _ in 0..cyc { asm::nop() }`; the no-op is
instrumented as a counter increment.
-/

namespace Delays

/-- Contents of the two 32-bit system-timer registers at one read instant. -/
structure DevState where
  hi : Nat
  lo : Nat
deriving DecidableEq, Repr

/-- Which register an MMIO read accesses. -/
inductive Reg where
  | HI : Reg
  | LO : Reg
deriving DecidableEq, Repr

/-- One MMIO read: returns the value of the addressed register at the
current instant, advances the instant, and logs the access. -/
def readReg (s : Nat → DevState) (r : Reg) (st : Nat × List Reg) : Nat × (Nat × List Reg) :=
  ((match r with
    | Reg.HI => (s st.1).hi
    | Reg.LO => (s st.1).lo),
   (st.1 + 1, st.2 ++ [r]))

/-- `(u64::from(hi) << 32) | u64::from(lo)` from the final line of
`get_system_timer`. -/
def compose (hi lo : Nat) : Nat :=
  (hi <<< 32) ||| lo

/-- `SysTmr::get_system_timer`, translated line by line: two HI reads; on a
mismatch a third HI read (reassigned to `hi`) followed by a LO read,
otherwise a LO read; the result is the 64-bit composition.  Returns the
value together with the advanced read state. -/
def get_system_timer (s : Nat → DevState) (st : Nat × List Reg) : Nat × (Nat × List Reg) :=
  let r1 := readReg s Reg.HI st
  let r2 := readReg s Reg.HI r1.2
  if r1.1 ≠ r2.1 then
    let r3 := readReg s Reg.HI r2.2
    let r4 := readReg s Reg.LO r3.2
    (compose r3.1 r4.1, r4.2)
  else
    let r3 := readReg s Reg.LO r2.2
    (compose r1.1 r3.1, r3.2)

/-- The polling loop of `SysTmr::wait_msec_st`, with explicit fuel.
`tn` is the precomputed value of `t + n` (pure, so hoisting it out of the
loop is sound).  The body mirrors the source exactly: poll the counter and,
if the fresh reading is strictly less than `tn`, break (returning the final
read state); otherwise keep looping. -/
def wait_msec_st_loop (s : Nat → DevState) (tn : Nat) :
    Nat → Nat × List Reg → Option (Nat × List Reg)
  | 0, _ => none
  | fuel + 1, st =>
    let p := get_system_timer s st
    if p.1 < tn then some p.2 else wait_msec_st_loop s tn fuel p.2

/-- `SysTmr::wait_msec_st`: read the counter once; if the reading `t` is
zero return immediately (the qemu escape hatch), else run the polling loop
against `(t + n) mod 2^64` (`t + n` is a wrapping `u64` addition). -/
def wait_msec_st (s : Nat → DevState) (n : Nat) (fuel : Nat) : Option (Nat × List Reg) :=
  let p := get_system_timer s (0, [])
  if p.1 > 0 then wait_msec_st_loop s ((p.1 + n) % 2 ^ 64) fuel p.2
  else some p.2

/-- A device trace backed by a single free-running 64-bit counter `c`:
at instant `k` the HI register holds the high word of the counter and LO
its low word. -/
def devOf (c : Nat → Nat) : Nat → DevState :=
  fun k => ⟨c k / 2 ^ 32, c k % 2 ^ 32⟩

/-- Software-visible flags of `CNTP_CTL_EL0` (ISTATUS is hardware-driven
and modelled separately as an environment input). -/
structure CtlReg where
  enable : Bool
  imask : Bool
deriving DecidableEq, Repr

/-- Register writes emitted by `wait_msec`. -/
inductive Ev where
  | writeTval : Nat → Ev
  | writeCtl : Bool → Bool → Ev
deriving DecidableEq, Repr

/-- `frq as u32`: truncation of the 64-bit frequency-register value. -/
def u32cast (x : Nat) : Nat := x % 2 ^ 32

/-- Wrapping `u32` multiplication (release-build Rust semantics). -/
def u32mul (a b : Nat) : Nat := (a * b) % 2 ^ 32

/-- `let tval = (frq as u32 / 1000) * n;` from the source of `wait_msec`. -/
def tval_of (frq n : Nat) : Nat := u32mul (u32cast frq / 1000) n

/-- The first `CNTP_CTL_EL0::modify_flags` call: set ENABLE and IMASK. -/
def setup_ctl (c : CtlReg) : CtlReg := { c with enable := true, imask := true }

/-- The final `CNTP_CTL_EL0::modify_flags` call: clear ENABLE only. -/
def teardown_ctl (c : CtlReg) : CtlReg := { c with enable := false }

/-- The ISTATUS polling loop with fuel: `sts i` is the ISTATUS line at the
i-th poll; returns the index of the first true poll, `none` if the fuel is
exhausted first. -/
def pollIstatus (sts : Nat → Bool) : Nat → Nat → Option Nat
  | 0, _ => none
  | fuel + 1, i => if sts i then some i else pollIstatus sts fuel (i + 1)

/-- `wait_msec` (CPU generic timer): compute `tval`, write it to
`CNTP_TVAL_EL0`, set ENABLE and IMASK in one control-register write, poll
ISTATUS, then clear ENABLE.  Parameters: `frq` is the 64-bit `CNTFRQ_EL0`
value, `n` the `u32` argument, `c0` the prior control flags, `sts` the
ISTATUS line supplied by the environment, `fuel` the poll bound.  Returns
the emitted register-write sequence and the final control flags, or `none`
when ISTATUS never rose within the fuel. -/
def wait_msec (frq n : Nat) (c0 : CtlReg) (sts : Nat → Bool) (fuel : Nat) :
    Option (List Ev × CtlReg) :=
  let tval := tval_of frq n
  let c1 := setup_ctl c0
  match pollIstatus sts fuel 0 with
  | none => none
  | some _ =>
    let c2 := teardown_ctl c1
    some ([Ev.writeTval tval, Ev.writeCtl c1.enable c1.imask,
           Ev.writeCtl c2.enable c2.imask], c2)

/-- `wait_cycles`: the `for _ in 0..cyc` loop with the `nop` instrumented
as a counter increment; the result is the number of no-ops executed. -/
def wait_cycles (cyc : Nat) : Nat :=
  (List.range cyc).foldl (fun nops _ => nops + 1) 0

/-- Counter trace advancing by one per register read, starting above zero
(hi stays 0, lo at instant k is k + 1). -/
def sAdv : Nat → DevState := fun k => ⟨0, k + 1⟩

/-- Constant nonzero counter trace (reading is always 5). -/
def sConst : Nat → DevState := fun _ => ⟨0, 5⟩

/-- Always-zero counter trace, as produced by emulators without the
system-timer peripheral. -/
def sZero : Nat → DevState := fun _ => ⟨0, 0⟩

/-- Trace whose high word differs between the first two reads. -/
def s4ex : Nat → DevState := fun k => ⟨k, 10 * k⟩

/-- Trace whose high word increments exactly once during the three reads
of one call, namely between the second HI read and the LO read:
hi is 5, 5, 6 at instants 0, 1, 2 and the low word wraps to 0. -/
def s5ex : Nat → DevState := fun k => if k < 2 then ⟨5, 10 + k⟩ else ⟨6, k - 2⟩

/-- Trace whose single high-word increment falls between the first and
second HI reads. -/
def s5w : Nat → DevState := fun k => if k = 0 then ⟨5, 99⟩ else ⟨6, k⟩

/-- Strictly increasing 64-bit counter whose low word rolls over between
the second call to `get_system_timer` and the LO read of that call. -/
def cEx6 : Nat → Nat := fun k => if k < 5 then 5 * 2 ^ 32 + 10 + k else 6 * 2 ^ 32 + 1 + (k - 5)

lemma compose_eq (hi lo : Nat) (h : lo < 2 ^ 32) : compose hi lo = 2 ^ 32 * hi + lo := by
  unfold compose
  rw [Nat.shiftLeft_eq, Nat.mul_comm hi (2 ^ 32)]
  exact (Nat.mul_add_lt_is_or h hi).symm

/-- Claim C1 (code bug): the spec requires `wait_msec_st n` to keep
re-reading the counter until a reading is at least `t + n`, but the source
breaks out of the loop when the reading is strictly LESS than `t + n`.  On
the trace `sAdv` (counter advancing by one per read) the initial reading is
`t = 3 > 0`, yet the call returns after a single poll whose reading is 6,
far below `t + n = 103`. -/
theorem C1_loop_breaks_early :
    (get_system_timer sAdv (0, [])).1 = 3 ∧
    wait_msec_st sAdv 100 1
      = some (6, [Reg.HI, Reg.HI, Reg.LO, Reg.HI, Reg.HI, Reg.LO]) ∧
    (get_system_timer sAdv ((get_system_timer sAdv (0, [])).2)).1 = 6 ∧
    6 < 3 + 100 := by decide

/-- Claim C2: when the initial reading `t` is positive, the break condition
of the polling loop is that the fresh reading is strictly less than
`t + n`.  Consequently (first conjunct) whenever the first poll reads below
`t + n` the function returns right after that single poll, and (second
conjunct) for `n = 0` against a counter whose readings never drop below
`t`, the loop never exits, for any iteration bound.  The side conditions
`t + n < 2^64` and `t < 2^64` keep the wrapping `u64` addition `t + n` of
the source equal to the plain sum. -/
theorem C2_break_is_lt (s : Nat → DevState) :
    (∀ n fuel : Nat,
        0 < (get_system_timer s (0, [])).1 →
        (get_system_timer s (0, [])).1 + n < 2 ^ 64 →
        (get_system_timer s ((get_system_timer s (0, [])).2)).1
            < (get_system_timer s (0, [])).1 + n →
        wait_msec_st s n (fuel + 1)
          = some (get_system_timer s ((get_system_timer s (0, [])).2)).2) ∧
    ((get_system_timer s (0, [])).1 < 2 ^ 64 →
      (∀ st, (get_system_timer s (0, [])).1 ≤ (get_system_timer s st).1) →
      0 < (get_system_timer s (0, [])).1 →
      ∀ fuel, wait_msec_st s 0 fuel = none) := by
  constructor
  · intro n fuel ht hlt hv
    simp only [wait_msec_st]
    rw [if_pos ht, Nat.mod_eq_of_lt hlt]
    simp only [wait_msec_st_loop]
    rw [if_pos hv]
  · intro hb hall ht fuel
    have hloop : ∀ (f : Nat) (st : Nat × List Reg),
        wait_msec_st_loop s ((get_system_timer s (0, [])).1) f st = none := by
      intro f
      induction f with
      | zero => intro st; rfl
      | succ k ih =>
        intro st
        simp only [wait_msec_st_loop]
        rw [if_neg (Nat.not_lt.mpr (hall _))]
        exact ih _
    simp only [wait_msec_st]
    rw [if_pos ht, Nat.add_zero, Nat.mod_eq_of_lt hb]
    exact hloop fuel _

/-- Witness for C2: on the constant trace `sConst` (reading 5), a call with
`n = 100` returns after one poll, and a call with `n = 0` never returns
(here within bound 7). -/
theorem C2_witness :
    wait_msec_st sConst 100 1
      = some (get_system_timer sConst ((get_system_timer sConst (0, [])).2)).2 ∧
    wait_msec_st sConst 0 7 = none := by
  constructor
  · exact (C2_break_is_lt sConst).1 100 0 (by decide) (by decide) (by decide)
  · exact (C2_break_is_lt sConst).2 (by decide)
      (fun st => by simp [get_system_timer, readReg, sConst, compose]) (by decide) 7

/-- Claim C3: if the first composed reading is 0, `wait_msec_st n` returns
immediately for every `n` without entering the polling loop — even with
zero loop fuel — and the whole call performs at most four register reads
(those of the single initial `get_system_timer`). -/
theorem C3_zero_short_circuit (s : Nat → DevState)
    (h : (get_system_timer s (0, [])).1 = 0) (n fuel : Nat) :
    wait_msec_st s n fuel = some (get_system_timer s (0, [])).2 ∧
    (get_system_timer s (0, [])).2.1 ≤ 4 := by
  constructor
  · simp [wait_msec_st, h]
  · by_cases hc : (s 0).hi = (s 1).hi <;> simp [get_system_timer, readReg, hc]

/-- Witness for C3: on the always-zero trace, `wait_msec_st 5` with zero
fuel returns at once after the three reads of the initial counter sample. -/
theorem C3_witness :
    wait_msec_st sZero 5 0 = some (get_system_timer sZero (0, [])).2 ∧
    (get_system_timer sZero (0, [])).2.1 ≤ 4 :=
  C3_zero_short_circuit sZero (by decide) 5 0

/-- Claim C4: `get_system_timer` reads HI, reads HI again; if the two
values differ it reads HI a third time (the authoritative high value) and
then LO, returning `(high << 32) | low` for that pair — four reads logged
`[HI, HI, HI, LO]`; otherwise the selected pair is the first HI value with
the single LO read, three reads logged `[HI, HI, LO]`. -/
theorem C4_read_protocol (s : Nat → DevState) :
    ((s 0).hi ≠ (s 1).hi →
      get_system_timer s (0, []) =
        (compose ((s 2).hi) ((s 3).lo), (4, [Reg.HI, Reg.HI, Reg.HI, Reg.LO]))) ∧
    ((s 0).hi = (s 1).hi →
      get_system_timer s (0, []) =
        (compose ((s 0).hi) ((s 2).lo), (3, [Reg.HI, Reg.HI, Reg.LO]))) := by
  constructor <;> intro h <;> simp [get_system_timer, readReg, h]

/-- Witness for C4: on `s4ex` the first two HI reads differ (0 and 1), so
the call performs a third HI read (value 2) and a LO read (value 30) and
composes them. -/
theorem C4_witness :
    get_system_timer s4ex (0, []) =
      (compose 2 30, (4, [Reg.HI, Reg.HI, Reg.HI, Reg.LO])) :=
  (C4_read_protocol s4ex).1 (by decide)

/-- Counterexample to claim C5: on `s5ex` the high word increments exactly
once during the three reads of the call (5, 5, 6 at instants 0, 1, 2), yet
the returned value carries the STALE high word 5 — below every value whose
high word is the post-rollover 6 — paired with the post-rollover low word.
The never-torn guarantee fails when the single increment falls between the
second HI read and the LO read. -/
theorem C5_counterexample :
    (s5ex 0).hi = 5 ∧ (s5ex 1).hi = 5 ∧ (s5ex 2).hi = 6 ∧
    (get_system_timer s5ex (0, [])).2 = (3, [Reg.HI, Reg.HI, Reg.LO]) ∧
    (get_system_timer s5ex (0, [])).1 >>> 32 = 5 ∧
    (get_system_timer s5ex (0, [])).1 < 6 <<< 32 := by decide

/-- Claim C5 as amended: if the high word increments exactly once across
the four read instants of one call AND that increment falls between the
first and the second HI reads, then the returned value does pair the
post-rollover high word with a low word sampled after the rollover (the
LO read at instant 3). -/
theorem C5_amended (s : Nat → DevState)
    (h1 : (s 1).hi = (s 0).hi + 1) (h2 : (s 2).hi = (s 1).hi)
    (h3 : (s 3).hi = (s 1).hi) :
    (get_system_timer s (0, [])).1 = compose ((s 1).hi) ((s 3).lo) ∧
    (get_system_timer s (0, [])).2 = (4, [Reg.HI, Reg.HI, Reg.HI, Reg.LO]) := by
  have hne : (s 0).hi ≠ (s 1).hi := by omega
  constructor <;> simp [get_system_timer, readReg, hne, h2]

/-- Witness for the amended C5 on the trace `s5w`. -/
theorem C5_witness :
    (get_system_timer s5w (0, [])).1 = compose ((s5w 1).hi) ((s5w 3).lo) ∧
    (get_system_timer s5w (0, [])).2 = (4, [Reg.HI, Reg.HI, Reg.HI, Reg.LO]) :=
  C5_amended s5w (by decide) (by decide) (by decide)

/-- Counterexample to claim C6: `cEx6` is a strictly increasing 64-bit
counter, yet of two consecutive `get_system_timer` calls the second returns
a SMALLER value than the first, because the low-word rollover between the
second HI read and the LO read of the second call makes that call compose a
stale high word with the wrapped-around low word. -/
theorem C6_counterexample :
    StrictMono cEx6 ∧
    (get_system_timer (devOf cEx6) ((get_system_timer (devOf cEx6) (0, [])).2)).1
      < (get_system_timer (devOf cEx6) (0, [])).1 := by
  constructor
  · apply strictMono_nat_of_lt_succ
    intro k
    have h32 : (2 : Nat) ^ 32 = 4294967296 := by norm_num
    simp only [cEx6, h32]
    split_ifs <;> omega
  · decide

/-- Claim C6 as amended: for a monotone free-running 64-bit counter whose
high word is unchanged across the read instants of each of the two calls
(instants 0–2 and 3–5), consecutive composed readings satisfy `r1 ≤ r2`. -/
theorem C6_amended (c : Nat → Nat) (hm : Monotone c)
    (h1 : c 0 / 2 ^ 32 = c 2 / 2 ^ 32) (h2 : c 3 / 2 ^ 32 = c 5 / 2 ^ 32) :
    (get_system_timer (devOf c) (0, [])).1
      ≤ (get_system_timer (devOf c) ((get_system_timer (devOf c) (0, [])).2)).1 := by
  have d01 : c 0 / 2 ^ 32 = c 1 / 2 ^ 32 := by
    have a1 : c 0 / 2 ^ 32 ≤ c 1 / 2 ^ 32 := Nat.div_le_div_right (hm (by omega))
    have a2 : c 1 / 2 ^ 32 ≤ c 2 / 2 ^ 32 := Nat.div_le_div_right (hm (by omega))
    omega
  have d34 : c 3 / 2 ^ 32 = c 4 / 2 ^ 32 := by
    have a1 : c 3 / 2 ^ 32 ≤ c 4 / 2 ^ 32 := Nat.div_le_div_right (hm (by omega))
    have a2 : c 4 / 2 ^ 32 ≤ c 5 / 2 ^ 32 := Nat.div_le_div_right (hm (by omega))
    omega
  have d01n : c 0 / 4294967296 = c 1 / 4294967296 := by omega
  have d34n : c 3 / 4294967296 = c 4 / 4294967296 := by omega
  have hv1 : get_system_timer (devOf c) (0, []) =
      (compose (c 1 / 2 ^ 32) (c 2 % 2 ^ 32), (3, [Reg.HI, Reg.HI, Reg.LO])) := by
    simp [get_system_timer, readReg, devOf, d01n]
  have hv2 : get_system_timer (devOf c) (3, [Reg.HI, Reg.HI, Reg.LO]) =
      (compose (c 4 / 2 ^ 32) (c 5 % 2 ^ 32),
       (6, [Reg.HI, Reg.HI, Reg.LO, Reg.HI, Reg.HI, Reg.LO])) := by
    simp [get_system_timer, readReg, devOf, d34n]
  simp only [hv1, hv2]
  rw [compose_eq _ _ (Nat.mod_lt _ (by norm_num)),
      compose_eq _ _ (Nat.mod_lt _ (by norm_num))]
  have hm25 : c 2 ≤ c 5 := hm (by omega)
  omega

/-- Witness for the amended C6 on the constant counter 7. -/
theorem C6_witness :
    (get_system_timer (devOf (fun _ => 7)) (0, [])).1
      ≤ (get_system_timer (devOf (fun _ => 7))
          ((get_system_timer (devOf (fun _ => 7)) (0, [])).2)).1 :=
  C6_amended (fun _ => 7) monotone_const (by decide) (by decide)

/-- Counterexample to claim C7: with a frequency-register value of `2^32`
and `n = 1`, the exact formula `(frequency / 1000) * n` gives 4294967, but
the code truncates the frequency to `u32` first (giving 0) and programs a
compare value of 0. -/
theorem C7_counterexample :
    wait_msec (2 ^ 32) 1 ⟨false, false⟩ (fun _ => true) 1
      = some ([Ev.writeTval 0, Ev.writeCtl true true, Ev.writeCtl false true],
              ⟨false, true⟩) ∧
    2 ^ 32 / 1000 * 1 = 4294967 ∧ (0 : Nat) ≠ 4294967 := by decide

/-- Claim C7 as amended: whenever `wait_msec` returns, the register writes
it performed are exactly: the compare value
`((frequency mod 2^32) / 1000 * n) mod 2^32` written to `CNTP_TVAL_EL0`,
then ONE control-register update setting both ENABLE and IMASK, then the
final control-register update clearing ENABLE with IMASK still set. -/
theorem C7_amended (frq n : Nat) (c0 : CtlReg) (sts : Nat → Bool) (fuel : Nat)
    (out : List Ev × CtlReg) (h : wait_msec frq n c0 sts fuel = some out) :
    out.1 = [Ev.writeTval (frq % 2 ^ 32 / 1000 * n % 2 ^ 32),
             Ev.writeCtl true true, Ev.writeCtl false true] := by
  unfold wait_msec at h
  rcases hp : pollIstatus sts fuel 0 with _ | i
  · rw [hp] at h
    exact absurd h (by simp)
  · rw [hp] at h
    have hout := Option.some.inj h
    rw [← hout]
    simp [tval_of, u32mul, u32cast, setup_ctl, teardown_ctl]

/-- Witness for the amended C7 at `frq = 1000`, `n = 2`. -/
theorem C7_witness :
    (([Ev.writeTval 2, Ev.writeCtl true true, Ev.writeCtl false true],
      (⟨false, true⟩ : CtlReg)) : List Ev × CtlReg).1
      = [Ev.writeTval (1000 % 2 ^ 32 / 1000 * 2 % 2 ^ 32),
         Ev.writeCtl true true, Ev.writeCtl false true] :=
  C7_amended 1000 2 ⟨false, false⟩ (fun _ => true) 1 _ (by decide)

/-- Claim C8: the compare value computed by `wait_msec` equals
`((frequency mod 2^32) / 1000 * n) mod 2^32` — the 64-bit frequency is
truncated to 32 bits before the division and the multiplication wraps at
2^32.  Concretely: a frequency of `2^32` yields 0 instead of the exact
4294967, and frequency `10^9` with `n = 10^6` wraps instead of matching
the exact product `10^12`. -/
theorem C8_truncated_arithmetic :
    (∀ frq n : Nat, tval_of frq n = frq % 2 ^ 32 / 1000 * n % 2 ^ 32) ∧
    tval_of (2 ^ 32) 1 = 0 ∧ 2 ^ 32 / 1000 * 1 = 4294967 ∧
    tval_of 1000000000 1000000 ≠ 1000000000 / 1000 * 1000000 :=
  ⟨fun frq n => rfl, by decide, by decide, by decide⟩

/-- Claim C9: whenever `wait_msec` returns — for every `n` and every
frequency value, including `n = 0` and `frq = 0` — the final control flags
have ENABLE cleared while IMASK still holds the value the setup update gave
it (the final update, the last write emitted, clears ENABLE only and does
not restore IMASK). -/
theorem C9_lifecycle (frq n : Nat) (c0 : CtlReg) (sts : Nat → Bool) (fuel : Nat)
    (out : List Ev × CtlReg) (h : wait_msec frq n c0 sts fuel = some out) :
    out.2.enable = false ∧ out.2.imask = (setup_ctl c0).imask ∧
    out.1.getLast? = some (Ev.writeCtl false ((setup_ctl c0).imask)) := by
  unfold wait_msec at h
  rcases hp : pollIstatus sts fuel 0 with _ | i
  · rw [hp] at h
    exact absurd h (by simp)
  · rw [hp] at h
    have hout := Option.some.inj h
    rw [← hout]
    simp [setup_ctl, teardown_ctl]

/-- Witness for C9 at the edge case `n = 0`, `frq = 0`. -/
theorem C9_witness :
    (([Ev.writeTval 0, Ev.writeCtl true true, Ev.writeCtl false true],
      (⟨false, true⟩ : CtlReg)) : List Ev × CtlReg).2.enable = false ∧
    (([Ev.writeTval 0, Ev.writeCtl true true, Ev.writeCtl false true],
      (⟨false, true⟩ : CtlReg)) : List Ev × CtlReg).2.imask
        = (setup_ctl ⟨false, false⟩).imask ∧
    (([Ev.writeTval 0, Ev.writeCtl true true, Ev.writeCtl false true],
      (⟨false, true⟩ : CtlReg)) : List Ev × CtlReg).1.getLast?
        = some (Ev.writeCtl false ((setup_ctl ⟨false, false⟩).imask)) :=
  C9_lifecycle 0 0 ⟨false, false⟩ (fun _ => true) 1 _ (by decide)

/-- Claim C10: `wait_cycles cyc` terminates (it is a total function of this
model) and executes its no-op body exactly `cyc` times; in particular
`wait_cycles 0 = 0`. -/
theorem C10_wait_cycles_exact (cyc : Nat) : wait_cycles cyc = cyc := by
  unfold wait_cycles
  have h : ∀ (l : List Nat) (acc : Nat), l.foldl (fun a _ => a + 1) acc = acc + l.length := by
    intro l
    induction l with
    | nil => intro acc; simp
    | cons x xs ih => intro acc; simp [List.foldl, ih]; omega
  simp [h]

end Delays
